import Mathlib

/-!
Verification development for the object-storage core of `libwyag.py`.

The Python source is shallowly embedded: byte strings become `List Nat`
(each element a byte value `< 256`), Python `str` values become `String`,
Python exceptions become the `PyErr` error type threaded through `Except`,
and the two unboundedly recursive routines (`kvlm_parse` and
`log_graphviz`) take explicit fuel, with `Option.none` marking fuel
exhaustion.  Python-specific primitive semantics (`bytes.find` returning
`-1`, negative indices, slice clamping, `int(...)` parsing) are modelled
by dedicated helpers below.
-/

set_option maxHeartbeats 1000000
set_option maxRecDepth 4000
set_option linter.unusedVariables false

/-- Python exception kinds raised by the embedded code paths. -/
inductive PyErr where
  | fileNotFound
  | assertionError
  | attributeError
  | nameError
  | keyError
  | indexError
  | valueError
  | typeError
  | unicodeError
  | overflowError
  | malformed
  | unknownType
deriving DecidableEq, Repr

deriving instance DecidableEq for Except

/-- First index of byte `c` in `l`, scanning left to right. -/
def scanFor (c : Nat) : List Nat → Option Nat
  | [] => none
  | x :: xs => if x = c then some 0 else (scanFor c xs).map (· + 1)

/-- Python `raw.find(bytes([c]), start)`: `-1` when absent; a negative
`start` counts from the end and is clamped at `0`. -/
def bFind (raw : List Nat) (c : Nat) (start : Int) : Int :=
  let s : Nat := if start < 0 then ((raw.length : Int) + start).toNat else start.toNat
  match scanFor c (raw.drop s) with
  | some j => ((s + j : Nat) : Int)
  | none => -1

/-- Normalize a Python slice bound against a buffer of length `n`. -/
def sliceNorm (n : Nat) (i : Int) : Nat :=
  if i < 0 then ((n : Int) + i).toNat else min i.toNat n

/-- Python `raw[a:b]` slice semantics (negative indices, clamping). -/
def pySlice (raw : List Nat) (a b : Int) : List Nat :=
  (raw.take (sliceNorm raw.length b)).drop (sliceNorm raw.length a)

/-- Python `raw[a:]`. -/
def pySliceFrom (raw : List Nat) (a : Int) : List Nat :=
  pySlice raw a (raw.length : Int)

/-- Python `raw[i]` byte indexing: negative indices count from the end,
out-of-range indices raise `IndexError`. -/
def pyIndex (raw : List Nat) (i : Int) : Except PyErr Nat :=
  if 0 ≤ i ∧ i < (raw.length : Int) then .ok (raw.getD i.toNat 0)
  else if -(raw.length : Int) ≤ i ∧ i < 0 then .ok (raw.getD ((raw.length : Int) + i).toNat 0)
  else .error .indexError

/-- Python `bytes.replace(pat, rep)` for a nonempty pattern (leftmost,
non-overlapping), with structural fuel; each step consumes at least one
input byte, so fuel equal to the input length never runs out. -/
def bytesReplaceAux : Nat → List Nat → List Nat → List Nat → List Nat
  | 0, l, _, _ => l
  | _, [], _, _ => []
  | f + 1, x :: xs, pat, rep =>
    match pat with
    | [] => x :: bytesReplaceAux f xs [] rep
    | p :: ps =>
      if (p :: ps) <+: (x :: xs) then
        rep ++ bytesReplaceAux f ((x :: xs).drop (p :: ps).length) (p :: ps) rep
      else
        x :: bytesReplaceAux f xs (p :: ps) rep

/-- Python `bytes.replace(pat, rep)`. -/
def bytesReplace (l pat rep : List Nat) : List Nat := bytesReplaceAux l.length l pat rep

/-- Python `b.decode("ascii")`: fails on any byte `≥ 128`. -/
def decodeAscii (b : List Nat) : Except PyErr String :=
  if b.all (· < 128) then .ok (String.mk (b.map Char.ofNat)) else .error .unicodeError

/-- Value of a decimal-digit byte run, `none` if empty or a non-digit occurs. -/
def decDigitsVal : List Nat → Option Nat
  | [] => none
  | ds => ds.foldlM (fun acc d => if 48 ≤ d ∧ d ≤ 57 then some (acc * 10 + (d - 48)) else none) 0

/-- Whitespace bytes stripped by Python `int(...)`. -/
def isPyWs (b : Nat) : Bool := b = 32 || b = 9 || b = 10 || b = 13

/-- Python `int(b.decode("ascii"))`: ascii check, whitespace strip, optional
sign, decimal digits; anything else raises. -/
def parsePyInt (b : List Nat) : Except PyErr Int :=
  if ¬ b.all (· < 128) then .error .unicodeError
  else
    let t := ((b.dropWhile isPyWs).reverse.dropWhile isPyWs).reverse
    match t with
    | 45 :: ds =>
      match decDigitsVal ds with
      | some n => .ok (-(n : Int))
      | none => .error .valueError
    | 43 :: ds =>
      match decDigitsVal ds with
      | some n => .ok (n : Int)
      | none => .error .valueError
    | ds =>
      match decDigitsVal ds with
      | some n => .ok (n : Int)
      | none => .error .valueError

/-- Little-endian decimal digits, with structural fuel (`n / 10 < n` for
positive `n`, so fuel `n` suffices). -/
def decDigitsAux : Nat → Nat → List Nat
  | 0, _ => []
  | f + 1, n => if n = 0 then [] else n % 10 :: decDigitsAux f (n / 10)

/-- Little-endian decimal digits of `n` (empty for `0`). -/
def decDigitsLE (n : Nat) : List Nat := decDigitsAux n n

/-- ASCII bytes of Python `str(n)` for a natural `n`. -/
def natDecBytes (n : Nat) : List Nat :=
  if n = 0 then [48] else ((decDigitsLE n).reverse.map (48 + ·))

/-- Little-endian base-16 digits, with structural fuel (`n / 16 < n` for
positive `n`, so fuel `n` suffices). -/
def hexDigitsAux : Nat → Nat → List Nat
  | 0, _ => []
  | f + 1, n => if n = 0 then [] else n % 16 :: hexDigitsAux f (n / 16)

/-- Little-endian base-16 digits of `n` (empty for `0`). -/
def hexDigitsLE (n : Nat) : List Nat := hexDigitsAux n n

/-- Lowercase hex digit character for `d < 16`. -/
def hexDigitChar (d : Nat) : Char :=
  if d < 10 then Char.ofNat (48 + d) else Char.ofNat (87 + d)

/-- Python `hex(n)[2:]` for `n ≥ 0`: minimal lowercase hex rendering,
no leading zeros, `0` for zero. -/
def natToHex (n : Nat) : String :=
  if n = 0 then String.mk [Char.ofNat 48]
  else String.mk ((hexDigitsLE n).reverse.map hexDigitChar)

/-- Numeric value of a single hex character, upper or lower case. -/
def hexCharVal (c : Char) : Option Nat :=
  if 48 ≤ c.toNat ∧ c.toNat ≤ 57 then some (c.toNat - 48)
  else if 97 ≤ c.toNat ∧ c.toNat ≤ 102 then some (c.toNat - 87)
  else if 65 ≤ c.toNat ∧ c.toNat ≤ 70 then some (c.toNat - 55)
  else none

/-- Python `int(s, 16)` on a plain hex-digit string. -/
def hexToNat (s : String) : Option Nat :=
  match s.data with
  | [] => none
  | cs => cs.foldlM (fun acc c => (hexCharVal c).map (fun v => acc * 16 + v)) 0

/-- Big-endian bytes of `n`, exactly `len` bytes (Python `n.to_bytes(len, "big")`,
overflow unchecked here; callers check the bound). -/
def natToBytesBE : Nat → Nat → List Nat
  | 0, _ => []
  | l + 1, n => natToBytesBE l (n / 256) ++ [n % 256]

/-- Python `int.from_bytes(b, "big")`. -/
def bytesToNatBE (b : List Nat) : Nat :=
  b.foldl (fun acc x => acc * 256 + x) 0

/-- A `String` from a list of ASCII codes (used to build concrete digests). -/
def strOfCodes (l : List Nat) : String := String.mk (l.map Char.ofNat)

/-- Truncate to a 32-bit word. -/
def w32 (n : Nat) : Nat := n % 4294967296

/-- Rotate a 32-bit word left by `b`. -/
def rotl (b x : Nat) : Nat := w32 (x * 2 ^ b + x / 2 ^ (32 - b))

/-- SHA-1 round function. -/
def sha1f (t b c d : Nat) : Nat :=
  if t < 20 then (b &&& c) ||| ((b ^^^ 4294967295) &&& d)
  else if t < 40 then b ^^^ c ^^^ d
  else if t < 60 then (b &&& c) ||| (b &&& d) ||| (c &&& d)
  else b ^^^ c ^^^ d

/-- SHA-1 round constants. -/
def sha1k (t : Nat) : Nat :=
  if t < 20 then 0x5A827999
  else if t < 40 then 0x6ED9EBA1
  else if t < 60 then 0x8F1BBCDC
  else 0xCA62C1D6

/-- Big-endian 32-bit words from bytes, four at a time. -/
def bytesToWordsBE : List Nat → List Nat
  | a :: b :: c :: d :: rest => (((a * 256 + b) * 256 + c) * 256 + d) :: bytesToWordsBE rest
  | _ => []

/-- Word `i` of the message schedule, `0` out of range. -/
def wsAt (ws : List Nat) (i : Nat) : Nat := ws.getD i 0

/-- Extend the 16-word schedule by `n` further words. -/
def sha1w (ws : List Nat) : Nat → List Nat
  | 0 => ws
  | n + 1 =>
    let w' := sha1w ws n
    w' ++ [rotl 1 ((wsAt w' (w'.length - 3)) ^^^ (wsAt w' (w'.length - 8)) ^^^
                   (wsAt w' (w'.length - 14)) ^^^ (wsAt w' (w'.length - 16)))]

/-- One SHA-1 round: state update for round `t` with schedule word `w`. -/
def sha1step (st : Nat × Nat × Nat × Nat × Nat) (tw : Nat × Nat) :
    Nat × Nat × Nat × Nat × Nat :=
  match st, tw with
  | (a, b, c, d, e), (t, w) =>
    (w32 (rotl 5 a + sha1f t b c d + e + sha1k t + w), a, rotl 30 b, c, d)

/-- Compress one 64-byte block into the running hash state. -/
def sha1block (h : Nat × Nat × Nat × Nat × Nat) (block : List Nat) :
    Nat × Nat × Nat × Nat × Nat :=
  let ws := sha1w (bytesToWordsBE block) 64
  match ((List.range 80).zip ws).foldl sha1step h, h with
  | (a, b, c, d, e), (h0, h1, h2, h3, h4) =>
    (w32 (h0 + a), w32 (h1 + b), w32 (h2 + c), w32 (h3 + d), w32 (h4 + e))

/-- SHA-1 padding: `0x80`, zeros to 56 mod 64, then the 64-bit bit length. -/
def sha1pad (msg : List Nat) : List Nat :=
  let l := msg.length
  let k := (64 + 56 - (l + 1) % 64) % 64
  msg ++ [128] ++ List.replicate k 0 ++ natToBytesBE 8 (8 * l)

/-- Fold the compression function over successive 64-byte blocks, with
structural fuel; each pass drops 64 bytes, so fuel equal to the input
length never runs out. -/
def sha1chunksAux : Nat → (Nat × Nat × Nat × Nat × Nat) → List Nat →
    Nat × Nat × Nat × Nat × Nat
  | 0, h, _ => h
  | f + 1, h, rest =>
    if rest = [] then h else sha1chunksAux f (sha1block h (rest.take 64)) (rest.drop 64)

/-- Fold the compression function over successive 64-byte blocks. -/
def sha1chunks (h : Nat × Nat × Nat × Nat × Nat) (rest : List Nat) :
    Nat × Nat × Nat × Nat × Nat :=
  sha1chunksAux rest.length h rest

/-- The 20 digest bytes of SHA-1. -/
def sha1bytes (msg : List Nat) : List Nat :=
  match sha1chunks (0x67452301, 0xEFCDAB89, 0x98BADCFE, 0x10325476, 0xC3D2E1F0)
      (sha1pad msg) with
  | (h0, h1, h2, h3, h4) =>
    natToBytesBE 4 h0 ++ natToBytesBE 4 h1 ++ natToBytesBE 4 h2 ++
    natToBytesBE 4 h3 ++ natToBytesBE 4 h4

/-- Two zero-padded lowercase hex characters of one byte. -/
def byteHex (b : Nat) : List Char := [hexDigitChar (b / 16 % 16), hexDigitChar (b % 16)]

/-- Python `hashlib.sha1(msg).hexdigest()`: 40 lowercase hex characters. -/
def sha1hex (msg : List Nat) : String :=
  String.mk ((sha1bytes msg).foldr (fun b acc => byteHex b ++ acc) [])

/-- A KVLM value: Python stores either one byte string or a list of them. -/
inductive KVal where
  | one (v : List Nat)
  | many (vs : List (List Nat))
deriving DecidableEq, Repr

/-- The ordered dictionary built by `kvlm_parse`: insertion-ordered
key/value pairs, the empty key reserved for the trailing message. -/
abbrev KVLM := List (List Nat × KVal)

/-- Ordered-dict lookup. -/
def kvLookup : KVLM → List Nat → Option KVal
  | [], _ => none
  | (k, v) :: rest, key => if k = key then some v else kvLookup rest key

/-- The non-overwriting insertion of `kvlm_parse`: an existing key keeps its
position and accumulates a list of values; a new key is appended. -/
def kvAdd : KVLM → List Nat → List Nat → KVLM
  | [], key, v => [(key, .one v)]
  | (k, w) :: rest, key, v =>
    if k = key then
      (k, match w with
          | .one o => KVal.many [o, v]
          | .many l => KVal.many (l ++ [v])) :: rest
    else (k, w) :: kvAdd rest key v

/-- Plain ordered-dict assignment `dct[b''] = msg` (overwrites in place). -/
def kvSetMsg : KVLM → List Nat → KVLM
  | [], msg => [([], .one msg)]
  | (k, w) :: rest, msg =>
    if k = ([] : List Nat) then (k, .one msg) :: rest else (k, w) :: kvSetMsg rest msg

/-- The inner `while True` scan of `kvlm_parse` locating the end of a value:
`end = raw.find(b'\n', end + 1)`, breaking when `raw[end + 1] != ord(' ')`.
Fueled, since the source loop need not terminate. -/
def kvlmScanEnd (raw : List Nat) : Int → Nat → Option (Except PyErr Int)
  | _, 0 => none
  | e, sf + 1 =>
    let e' := bFind raw 10 (e + 1)
    match pyIndex raw (e' + 1) with
    | .error err => some (.error err)
    | .ok b => if b = 32 then kvlmScanEnd raw e' sf else some (.ok e')

/-- Embedding of `kvlm_parse(raw, start, dct)`.  `sf` is fuel for each inner
scan, `f` fuel for the recursion; `none` means fuel ran out.  Note the
source computes `value = raw[spc+1:end].replace(b'\n', b'\n')`: the
replacement pattern equals its replacement, so it is kept verbatim here. -/
def kvlm_parse (raw : List Nat) : Int → KVLM → Nat → Nat → Option (Except PyErr KVLM)
  | _, _, _, 0 => none
  | start, dct, sf, f + 1 =>
    let spc := bFind raw 32 start
    let nl := bFind raw 10 start
    if spc < 0 ∨ nl < spc then
      if nl = start then some (.ok (kvSetMsg dct (pySliceFrom raw (start + 1))))
      else some (.error .assertionError)
    else
      let key := pySlice raw start spc
      match kvlmScanEnd raw start sf with
      | none => none
      | some (.error e) => some (.error e)
      | some (.ok e) =>
        let value := bytesReplace (pySlice raw (spc + 1) e) [10] [10]
        kvlm_parse raw (e + 1) (kvAdd dct key value) sf f

/-- The value list a key serializes with (`val = [val]` when not a list). -/
def kvValList : KVal → List (List Nat)
  | .one v => [v]
  | .many vs => vs

/-- Embedding of `kvlm_serialize`: keys in order, message last.  The source
appends `k + b' ' + v.replace(b'\n', b'\n') + b'\n'` per value (the replace
is again the identity pattern), then `b'\n' + kvlm[b'']`; a missing or
list-valued message key raises. -/
def kvlm_serialize (kvlm : KVLM) : Except PyErr (List Nat) :=
  let body := kvlm.foldl
    (fun acc kv =>
      if kv.1 = ([] : List Nat) then acc
      else acc ++ (kvValList kv.2).foldl
        (fun a v => a ++ kv.1 ++ [32] ++ bytesReplace v [10] [10] ++ [10]) [])
    []
  match kvLookup kvlm [] with
  | none => .error .keyError
  | some (.many _) => .error .typeError
  | some (.one msg) => .ok (body ++ [10] ++ msg)

/-- One tree entry: `mode`, `path` as raw bytes, `sha` as the Python string
`hex(int.from_bytes(digest, "big"))[2:]`. -/
structure GitTreeLeaf where
  mode : List Nat
  path : List Nat
  sha : String
deriving DecidableEq, Repr

/-- Embedding of `tree_parse_one`: find the space, assert a 5- or 6-byte
mode, find the NUL, take 20 digest bytes, convert via `hex(...)[2:]`. -/
def tree_parse_one (raw : List Nat) (start : Int) : Except PyErr (Int × GitTreeLeaf) :=
  let x := bFind raw 32 start
  if x - start = 5 ∨ x - start = 6 then
    let mode := pySlice raw start x
    let y := bFind raw 0 x
    let path := pySlice raw (x + 1) y
    let sha := natToHex (bytesToNatBE (pySlice raw (y + 1) (y + 21)))
    .ok (y + 21, ⟨mode, path, sha⟩)
  else .error .assertionError

/-- Embedding of the `tree_parse` loop (`while pos < max`), fueled because a
malformed payload can keep `pos` from advancing. -/
def tree_parse (raw : List Nat) : Int → Nat → Option (Except PyErr (List GitTreeLeaf))
  | _, 0 => none
  | pos, f + 1 =>
    if pos < (raw.length : Int) then
      match tree_parse_one raw pos with
      | .error e => some (.error e)
      | .ok (pos', leaf) => (tree_parse raw pos' f).map (·.map (leaf :: ·))
    else some (.ok [])

/-- One iteration of the `tree_serialize` loop: append `mode SP path NUL`
and the 20 big-endian bytes of `int(sha, 16)`.  `int(...)` raises on a
non-hex sha, `to_bytes(20, "big")` on overflow. -/
def tree_serialize_one (acc : List Nat) (i : GitTreeLeaf) : Except PyErr (List Nat) :=
  match hexToNat i.sha with
  | none => .error .valueError
  | some n =>
    if n < 256 ^ 20 then
      .ok (acc ++ i.mode ++ [32] ++ i.path ++ [0] ++ natToBytesBE 20 n)
    else .error .overflowError

/-- Embedding of `tree_serialize`: concatenate the entries' encodings in
the caller's order. -/
def tree_serialize (items : List GitTreeLeaf) : Except PyErr (List Nat) :=
  items.foldlM tree_serialize_one []

/-- ASCII bytes of the type tag `b'blob'`. -/
def blobTag : List Nat := [98, 108, 111, 98]

/-- ASCII bytes of the type tag `b'tree'`. -/
def treeTag : List Nat := [116, 114, 101, 101]

/-- ASCII bytes of the type tag `b'commit'`. -/
def commitTag : List Nat := [99, 111, 109, 109, 105, 116]

/-- ASCII bytes of the type tag `b'tag'`. -/
def tagTag : List Nat := [116, 97, 103]

/-- The attribute slots of a `GitCommit` instance.  `deserialize` assigns
`self.kvlm`; nothing in the module ever assigns `self.kvml`, yet
`serialize` reads it — accessing an unassigned attribute raises
`AttributeError`, modelled by the `Option` being `none`. -/
structure GitCommitObj where
  kvlm : Option KVLM
  kvml : Option KVLM
deriving DecidableEq, Repr

/-- The object variants the module defines.  (`GitTag` is referenced by
`object_read` and `object_hash` but no such class exists in the module.) -/
inductive GitObj where
  | blob (blobdata : List Nat)
  | commit (c : GitCommitObj)
  | tree (items : List GitTreeLeaf)
deriving DecidableEq, Repr

/-- The class attribute `fmt` of each variant. -/
def GitObj.fmt : GitObj → List Nat
  | .blob _ => blobTag
  | .commit _ => commitTag
  | .tree _ => treeTag

/-- Method dispatch for `serialize()`: `GitBlob` returns `self.blobdata`,
`GitCommit` returns `kvlm_serialize(self.kvml)` — reading the never-assigned
`kvml` attribute — and `GitTree` returns `tree_serialize(self)`. -/
def GitObj.serialize : GitObj → Except PyErr (List Nat)
  | .blob d => .ok d
  | .commit c =>
    match c.kvml with
    | none => .error .attributeError
    | some k => kvlm_serialize k
  | .tree items => tree_serialize items

/-- `GitBlob(repo, data)`: `deserialize` stores the payload verbatim. -/
def GitBlob_new (data : List Nat) : GitObj := .blob data

/-- `GitCommit(repo, data)`: `deserialize` assigns `self.kvlm = kvlm_parse(data)`. -/
def GitCommit_new (data : List Nat) (sf f : Nat) : Option (Except PyErr GitObj) :=
  (kvlm_parse data 0 [] sf f).map (·.map (fun d => .commit ⟨some d, none⟩))

/-- `GitTree(repo, data)`: `deserialize` assigns `self.items = tree_parse(data)`. -/
def GitTree_new (data : List Nat) (f : Nat) : Option (Except PyErr GitObj) :=
  (tree_parse data 0 f).map (·.map .tree)

/-- The on-disk object store, abstracted as a map from the two-level path
`(sha[0:2], sha[2:])` to the stored (compressed) bytes. -/
abbrev ObjStore := (String × String) → Option (List Nat)

/-- Dispatch on the decompressed type tag, constructing the matching class.
The `tag` branch evaluates the name `GitTag`, which is not defined anywhere
in the module, so Python raises `NameError` there. -/
def objDispatch (fmt payload : List Nat) (sf f : Nat) : Option (Except PyErr GitObj) :=
  if fmt = commitTag then GitCommit_new payload sf f
  else if fmt = treeTag then GitTree_new payload f
  else if fmt = tagTag then some (.error .nameError)
  else if fmt = blobTag then some (.ok (GitBlob_new payload))
  else some (.error .unknownType)

/-- Embedding of `object_read(repo, sha)`.  `dec` stands for
`zlib.decompress`; a missing store entry is the `open` failure; the declared
ASCII length is compared with the byte length after the NUL, raising the
malformed-object error on mismatch before any object is constructed. -/
def object_read (dec : List Nat → List Nat) (store : ObjStore) (sha : String)
    (sf f : Nat) : Option (Except PyErr GitObj) :=
  match store (sha.take 2, sha.drop 2) with
  | none => some (.error .fileNotFound)
  | some stored =>
    let raw := dec stored
    let x := bFind raw 32 0
    let y := bFind raw 0 x
    match parsePyInt (pySlice raw x y) with
    | .error e => some (.error e)
    | .ok size =>
      if size ≠ (raw.length : Int) - y - 1 then some (.error .malformed)
      else objDispatch (pySlice raw 0 x) (pySliceFrom raw (y + 1)) sf f

/-- The framed buffer `obj.fmt + b' ' + str(len(data)).encode() + b'\x00' + data`
hashed and stored by `object_write`. -/
def objFrame (fmt data : List Nat) : List Nat :=
  fmt ++ [32] ++ natDecBytes data.length ++ [0] ++ data

/-- Embedding of `object_write(obj, actually_write)`.  `cmp` stands for
`zlib.compress`.  Returns the hex digest and the resulting store; when
`actuallyWrite` is false the store is untouched. -/
def object_write (cmp : List Nat → List Nat) (obj : GitObj) (store : ObjStore)
    (actuallyWrite : Bool) : Except PyErr (String × ObjStore) :=
  match obj.serialize with
  | .error e => .error e
  | .ok data =>
    let result := objFrame obj.fmt data
    let sha := sha1hex result
    if actuallyWrite then
      .ok (sha, fun k => if k = (sha.take 2, sha.drop 2) then some (cmp result) else store k)
    else .ok (sha, store)

/-- Embedding of `object_find(repo, name, fmt, follow)`: the body is the
single statement `return name`. -/
def object_find (repo : ObjStore) (name : String) (fmt : Option (List Nat))
    (follow : Bool) : String :=
  name

/-- ASCII bytes of the metadata key `b'parent'`. -/
def parentKey : List Nat := [112, 97, 114, 101, 110, 116]

/-- Observable outcome of one `log_graphviz` traversal: the edges printed
(`c_sha -> c_parent`, in print order), the `seen` set after the walk (the
source mutates one shared Python `set`), and the digests visited — i.e.
passed to `object_read` — in visit order. -/
structure WalkOut where
  edges : List (String × String)
  seen : List String
  trace : List String
deriving DecidableEq, Repr

/-- The store the walker reads through: `object_read`'s result for each
digest, keyed by digest (association list, so the commit graph is finite). -/
abbrev CommitStore := List (String × GitObj)

/-- Lookup in a `CommitStore`; `none` is the missing-file failure. -/
def storeLookup : CommitStore → String → Option GitObj
  | [], _ => none
  | (k, v) :: rest, sha => if k = sha then some v else storeLookup rest sha

/-- The parent list of a commit as `log_graphviz` extracts it: absent key
means a root; a single value is wrapped into a one-element list. -/
def kvParents (kv : KVLM) : Option (List (List Nat)) :=
  match kvLookup kv parentKey with
  | none => none
  | some (.one v) => some [v]
  | some (.many vs) => some vs

/-- The `for p in parents` loop of `log_graphviz`: decode each parent,
print the edge, recurse (through `recur`), threading the shared `seen`. -/
def walkParents (recur : String → List String → Option (Except PyErr WalkOut))
    (sha : String) : List (List Nat) → List String → Option (Except PyErr WalkOut)
  | [], seen => some (.ok ⟨[], seen, []⟩)
  | p :: rest, seen =>
    match decodeAscii p with
    | .error e => some (.error e)
    | .ok pstr =>
      match recur pstr seen with
      | none => none
      | some (.error e) => some (.error e)
      | some (.ok o1) =>
        match walkParents recur sha rest o1.seen with
        | none => none
        | some (.error e) => some (.error e)
        | some (.ok o2) =>
          some (.ok ⟨(sha, pstr) :: (o1.edges ++ o2.edges), o2.seen, o1.trace ++ o2.trace⟩)

/-- Embedding of `log_graphviz(repo, sha, seen)`, fueled.  A seen digest
returns at once; otherwise the digest is added to `seen`, read from the
store (a failed read or a non-commit object raises), and each parent is
walked depth-first in metadata order. -/
def log_graphviz (store : CommitStore) (sha : String) (seen : List String) :
    Nat → Option (Except PyErr WalkOut)
  | 0 => none
  | f + 1 =>
    if sha ∈ seen then some (.ok ⟨[], seen, []⟩)
    else
      match storeLookup store sha with
      | none => some (.error .fileNotFound)
      | some obj =>
        if obj.fmt = commitTag then
          match obj with
          | .commit c =>
            match c.kvlm with
            | none => some (.error .attributeError)
            | some kv =>
              match kvParents kv with
              | none => some (.ok ⟨[], sha :: seen, [sha]⟩)
              | some ps =>
                match walkParents (fun q s => log_graphviz store q s f) sha ps (sha :: seen) with
                | none => none
                | some (.error e) => some (.error e)
                | some (.ok o) => some (.ok ⟨o.edges, o.seen, sha :: o.trace⟩)
          | .blob _ => some (.error .assertionError)
          | .tree _ => some (.error .assertionError)
        else some (.error .assertionError)

/-! Concrete fixtures used by the claim theorems and witnesses.  Byte lists
are spelled numerically; the ASCII reading is given in comments. -/

/-- The commit payload `b"tree A\n\nm"`. -/
def c1payload : List Nat := [116, 114, 101, 101, 32, 65, 10, 10, 109]

/-- The parse of `c1payload`: `tree ↦ A`, message `m`. -/
def c1kvlm : KVLM := [([116, 114, 101, 101], .one [65]), ([], .one [109])]

/-- The folded commit payload `b"tree AAA\n folded\n\nmsg\n"`. -/
def c2folded : List Nat :=
  [116, 114, 101, 101, 32, 65, 65, 65, 10, 32, 102, 111, 108, 100, 101, 100, 10, 10,
   109, 115, 103, 10]

/-- What `kvlm_parse` actually produces for `c2folded`: the value keeps the
leading space of the continuation line (`AAA\n folded`). -/
def c2parsed : KVLM :=
  [([116, 114, 101, 101], .one [65, 65, 65, 10, 32, 102, 111, 108, 100, 101, 100]),
   ([], .one [109, 115, 103, 10])]

/-- The spec's literal example payload `b"tree AAA\ncontinuation\n value\n\nmsg\n"`. -/
def c2specPayload : List Nat :=
  [116, 114, 101, 101, 32, 65, 65, 65, 10,
   99, 111, 110, 116, 105, 110, 117, 97, 116, 105, 111, 110, 10,
   32, 118, 97, 108, 117, 101, 10, 10, 109, 115, 103, 10]

/-- The input `b" \n x"`, on which the value scan of `kvlm_parse` cycles. -/
def c9loop : List Nat := [32, 10, 32, 120]

/-- The digest string `"abcd"` used by the store fixtures. -/
def c4sha : String := strOfCodes [97, 98, 99, 100]

/-- A digest with no store entry (`"zzz"`). -/
def c4missing : String := strOfCodes [122, 122, 122]

/-- A store holding one corrupt entry at `"abcd"`: frame `b"blob 5\x00abc"`
declares length 5 but carries a 3-byte payload. -/
def c4badStore : ObjStore :=
  fun k =>
    if k = (strOfCodes [97, 98], strOfCodes [99, 100]) then
      some (blobTag ++ [32, 53, 0, 97, 98, 99])
    else none

/-- A store holding one well-formed blob `b"blob 1\x00a"` at `"abcd"`. -/
def c3store : ObjStore :=
  fun k =>
    if k = (strOfCodes [97, 98], strOfCodes [99, 100]) then
      some (blobTag ++ [32, 49, 0, 97])
    else none

/-- A tree payload with one entry whose digest bytes lead with nineteen
zeros: mode `100644`, path `a`, digest `00…00ab`. -/
def c10payload : List Nat :=
  [49, 48, 48, 54, 52, 52, 32, 97, 0] ++ List.replicate 19 0 ++ [171]

/-- Digest string of one character for the diamond commit graph. -/
def shaA : String := strOfCodes [97]

/-- See `shaA`. -/
def shaB : String := strOfCodes [98]

/-- See `shaA`. -/
def shaC : String := strOfCodes [99]

/-- See `shaA`. -/
def shaD : String := strOfCodes [100]

/-- A parsed commit object with the given parent value (as stored KVLM). -/
def diamondCommit (ps : Option KVal) : GitObj :=
  .commit ⟨some (match ps with
    | none => [(treeTag, KVal.one [120]), ([], KVal.one [109])]
    | some v => [(treeTag, KVal.one [120]), (parentKey, v), ([], KVal.one [109])]), none⟩

/-- A four-commit history: `a` merges branches `b` and `c`, which both
descend from the root `d`. -/
def diamondStore : CommitStore :=
  [(shaA, diamondCommit (some (.many [[98], [99]]))),
   (shaB, diamondCommit (some (.one [100]))),
   (shaC, diamondCommit (some (.one [100]))),
   (shaD, diamondCommit none)]

/-- The digest `object_write` assigns the blob `b"a"`. -/
def c6digest : String := sha1hex (objFrame blobTag [97])

/-- The store after writing the blob `b"a"` into the empty store. -/
def c6store1 : ObjStore :=
  fun k => if k = (c6digest.take 2, c6digest.drop 2) then some (objFrame blobTag [97]) else none

/-- The store after writing the blob `b"a"` a second time. -/
def c6store2 : ObjStore :=
  fun k => if k = (c6digest.take 2, c6digest.drop 2) then some (objFrame blobTag [97]) else c6store1 k

/-- Value of a little-endian base-16 digit list. -/
def valHexLE : List Nat → Nat
  | [] => 0
  | d :: t => d + 16 * valHexLE t

/-- Store digests not yet seen (with multiplicity): the walker's
termination measure. -/
def unseenCount (store : CommitStore) (seen : List String) : Nat :=
  ((store.map Prod.fst).filter (fun k => decide (k ∉ seen))).length

/-- The visit trace of a walker outcome, empty when fuel ran out or an
error was raised. -/
def walkTrace : Option (Except PyErr WalkOut) → List String
  | some (.ok o) => o.trace
  | _ => []

/-- Fixture mode `b"40000"` (5 characters). -/
def c7m1 : List Nat := [52, 48, 48, 48, 48]

/-- Fixture path `b"a"`. -/
def c7p1 : List Nat := [97]

/-- Fixture digest bytes 1..20. -/
def c7b1 : List Nat :=
  [1, 2, 3, 4, 5, 6, 7, 8, 9, 10, 11, 12, 13, 14, 15, 16, 17, 18, 19, 20]

/-- Fixture mode `b"100644"` (6 characters). -/
def c7m2 : List Nat := [49, 48, 48, 54, 52, 52]

/-- Fixture path `b"b"`. -/
def c7p2 : List Nat := [98]

/-- Fixture digest bytes 100..119. -/
def c7b2 : List Nat :=
  [100, 101, 102, 103, 104, 105, 106, 107, 108, 109, 110, 111, 112, 113, 114,
   115, 116, 117, 118, 119]

/-! ## Claim theorems -/

/-- C1: the round-trip law `deserialize(serialize(x))` fails for the Commit
variant: `GitCommit.deserialize` assigns `self.kvlm`, yet `serialize` reads
the never-assigned attribute `self.kvml`, so serializing any deserialized
commit raises `AttributeError` instead of succeeding; and the Tag variant
cannot be constructed at all, since `object_read` dereferences the undefined
name `GitTag`.  Shown here on the well-formed payload `b"tree A\n\nm"`. -/
theorem commit_serialize_reads_unset_kvml :
    GitCommit_new c1payload 50 50 =
      some (.ok (GitObj.commit ⟨some c1kvlm, none⟩)) ∧
    GitObj.serialize (GitObj.commit ⟨some c1kvlm, none⟩) = .error .attributeError ∧
    objDispatch tagTag c1payload 50 50 = some (.error .nameError) := by
  refine ⟨by decide, by decide, by decide⟩

/-- C2: on the folded payload `b"tree AAA\n folded\n\nmsg\n"` the parsed
value for `tree` is `b"AAA\n folded"` — the single leading space of the
continuation line is NOT stripped, because the source computes
`.replace(b'\n', b'\n')`, a no-op; re-serialization is nonetheless
byte-identical (the serializer's replace is the same no-op); and on the
spec's literal payload `b"tree AAA\ncontinuation\n value\n\nmsg\n"` the
parser raises `AssertionError` rather than producing any value. -/
theorem kvlm_folding_space_not_stripped :
    kvlm_parse c2folded 0 [] 100 100 = some (.ok c2parsed) ∧
    kvlm_serialize c2parsed = .ok c2folded ∧
    kvlm_parse c2specPayload 0 [] 100 100 = some (.error .assertionError) := by
  refine ⟨by decide, by decide, by decide⟩

/-- C10: for a well-formed tree payload whose entry digest leads with zero
bytes, the parsed `sha` is NOT 40 hex characters: `hex(...)[2:]` drops
leading zeros, so digest `00…00ab` parses to the 2-character string `"ab"`. -/
theorem tree_parse_sha_drops_leading_zeros :
    tree_parse c10payload 0 5 =
      some (.ok [⟨[49, 48, 48, 54, 52, 52], [97], strOfCodes [97, 98]⟩]) ∧
    (strOfCodes [97, 98]).length = 2 := by
  refine ⟨by decide, by decide⟩

/-- C3 counterexample: a store whose entry at digest `"abcd"` is a blob;
resolving `"abcd"` with expected type `tree` does not fail with any
type-mismatch error — `object_find` returns the name unchanged even though
the object it denotes has a different type tag. -/
theorem object_find_ignores_type_counterexample :
    object_read id c3store c4sha 9 9 = some (.ok (GitObj.blob [97])) ∧
    (GitObj.blob [97]).fmt ≠ treeTag ∧
    object_find c3store c4sha (some treeTag) true = c4sha := by
  refine ⟨by decide, by decide, rfl⟩

/-- C3 amended: `object_find` is a literal pass-through — it returns the
reference unchanged for every repository, reference and requested type, and
its result does not depend on the supplied `fmt` or `follow` at all; in
particular it never fails with a type-mismatch error. -/
theorem object_find_passthrough :
    ∀ (repo : ObjStore) (name : String) (fmt1 fmt2 : Option (List Nat)) (f1 f2 : Bool),
      object_find repo name fmt1 f1 = name ∧
      object_find repo name fmt1 f1 = object_find repo name fmt2 f2 :=
  fun _ _ _ _ _ _ => ⟨rfl, rfl⟩

/-- On `b" \n x"` the value scan oscillates between offsets `1` and `-1`:
`find` fails, `raw[0]` is a space, and the scan restarts from the front. -/
lemma c9scan_cycle : ∀ sf, kvlmScanEnd c9loop 1 sf = none ∧ kvlmScanEnd c9loop (-1) sf = none := by
  intro sf
  induction sf with
  | zero => exact ⟨rfl, rfl⟩
  | succ n ih => exact ⟨ih.2, ih.1⟩

/-- The scan from the start offset enters the cycle after one step. -/
lemma c9scan_start : ∀ sf, kvlmScanEnd c9loop 0 sf = none := by
  intro sf
  cases sf with
  | zero => rfl
  | succ n => exact (c9scan_cycle n).1

/-- C9: `kvlm_parse` does not terminate on every input.  On `b" \n x"` the
inner scan that locates the end of a value loops forever (no fuel bound
suffices, for any scan fuel and any recursion fuel), and on `b"a b\n"` the
scan evaluates `raw[end + 1]` with `end + 1` equal to the buffer length,
reading an index past the end of the input and raising `IndexError`. -/
theorem kvlm_parse_diverges_on_cycle :
    (∀ sf f : Nat, kvlm_parse c9loop 0 [] sf f = none) ∧
    kvlm_parse [97, 32, 98, 10] 0 [] 100 100 = some (.error .indexError) := by
  refine ⟨?_, by decide⟩
  intro sf f
  cases f with
  | zero => rfl
  | succ g =>
    simp only [kvlm_parse]
    rw [if_neg (by decide : ¬ (bFind c9loop 32 0 < 0 ∨ bFind c9loop 10 0 < bFind c9loop 32 0)),
       c9scan_start sf]

/-- C4: `object_read` raises the missing-file error when no store entry
exists at `(sha[0:2], sha[2:])`, and raises the malformed-object error as
soon as the declared ASCII decimal length differs from the byte length of
the payload after the NUL; in both cases the result is an error, never a
(partially parsed) object. -/
theorem object_read_error_cases :
    ∀ (dec : List Nat → List Nat) (store : ObjStore) (sha : String) (sf f : Nat),
      (store (sha.take 2, sha.drop 2) = none →
        object_read dec store sha sf f = some (.error .fileNotFound)) ∧
      (∀ stored size,
        store (sha.take 2, sha.drop 2) = some stored →
        parsePyInt (pySlice (dec stored) (bFind (dec stored) 32 0)
            (bFind (dec stored) 0 (bFind (dec stored) 32 0))) = .ok size →
        size ≠ ((dec stored).length : Int) - bFind (dec stored) 0 (bFind (dec stored) 32 0) - 1 →
        object_read dec store sha sf f = some (.error .malformed)) := by
  intro dec store sha sf f
  constructor
  · intro h
    simp only [object_read, h]
  · intro stored size h1 h2 h3
    simp only [object_read, h1, h2]
    rw [if_pos h3]

/-- Witness for C4 at a concrete store: the entry at `"abcd"` is the frame
`b"blob 5\x00abc"` (declared length 5, actual payload 3 bytes), and the
digest `"zzz"` has no entry. -/
theorem object_read_error_cases_witness :
    object_read id c4badStore c4sha 9 9 = some (.error .malformed) ∧
    object_read id c4badStore c4missing 9 9 = some (.error .fileNotFound) :=
  ⟨(object_read_error_cases id c4badStore c4sha 9 9).2 (blobTag ++ [32, 53, 0, 97, 98, 99]) 5
      (by decide) (by decide) (by decide),
   (object_read_error_cases id c4badStore c4missing 9 9).1 (by decide)⟩

/-- C5: the digest `object_write` returns is the SHA-1 hex digest of the
framed buffer `fmt ++ b' ' ++ str(len(payload)) ++ b'\x00' ++ payload`
built from the object's `serialize()` output, and it is a pure function of
those framed bytes: any two objects (in any stores, persisted or not) whose
framed buffers coincide receive the identical digest. -/
theorem object_write_digest_of_frame :
    ∀ (cmp : List Nat → List Nat) (obj : GitObj) (store : ObjStore) (aw : Bool)
      (data : List Nat),
      obj.serialize = .ok data →
      (∃ st2, object_write cmp obj store aw = .ok (sha1hex (objFrame obj.fmt data), st2)) ∧
      (∀ (obj2 : GitObj) (store2 : ObjStore) (aw2 : Bool) (data2 : List Nat),
        obj2.serialize = .ok data2 →
        objFrame obj.fmt data = objFrame obj2.fmt data2 →
        ∃ st3, object_write cmp obj2 store2 aw2 = .ok (sha1hex (objFrame obj.fmt data), st3)) := by
  intro cmp obj store aw data h
  constructor
  · cases aw with
    | false => exact ⟨store, by simp [object_write, h]⟩
    | true =>
      exact ⟨fun k =>
        if k = ((sha1hex (objFrame obj.fmt data)).take 2,
                (sha1hex (objFrame obj.fmt data)).drop 2) then
          some (cmp (objFrame obj.fmt data))
        else store k, by simp [object_write, h]⟩
  · intro obj2 store2 aw2 data2 h2 hf
    rw [hf]
    cases aw2 with
    | false => exact ⟨store2, by simp [object_write, h2]⟩
    | true =>
      exact ⟨fun k =>
        if k = ((sha1hex (objFrame obj2.fmt data2)).take 2,
                (sha1hex (objFrame obj2.fmt data2)).drop 2) then
          some (cmp (objFrame obj2.fmt data2))
        else store2 k, by simp [object_write, h2]⟩

/-- Witness for C5 at the blob `b"a"`. -/
theorem object_write_digest_of_frame_witness :
    GitObj.serialize (GitObj.blob [97]) = .ok [97] ∧
    (∃ st2, object_write id (GitObj.blob [97]) (fun _ => none) true =
      .ok (sha1hex (objFrame (GitObj.blob [97]).fmt [97]), st2)) :=
  ⟨rfl, (object_write_digest_of_frame id (GitObj.blob [97]) (fun _ => none) true [97] rfl).1⟩

/-- C6: writing the same object twice with persistence returns the same
digest both times, the store after the second write equals the store after
the first (the second write stores byte-identical content at the same
two-level path), and the first write changes no entry other than the one at
`(digest[0:2], digest[2:])`. -/
theorem object_write_idempotent :
    ∀ (cmp : List Nat → List Nat) (obj : GitObj) (store : ObjStore) (d1 d2 : String)
      (s1 s2 : ObjStore),
      object_write cmp obj store true = .ok (d1, s1) →
      object_write cmp obj s1 true = .ok (d2, s2) →
      d1 = d2 ∧ s2 = s1 ∧ ∀ k, k ≠ (d1.take 2, d1.drop 2) → s1 k = store k := by
  intro cmp obj store d1 d2 s1 s2 h1 h2
  cases hser : obj.serialize with
  | error e => simp [object_write, hser] at h1
  | ok data =>
    simp only [object_write, hser, if_pos, Except.ok.injEq, Prod.mk.injEq] at h1 h2
    obtain ⟨hd1, hs1⟩ := h1
    obtain ⟨hd2, hs2⟩ := h2
    subst hd1 hd2 hs1 hs2
    refine ⟨rfl, funext fun k => ?_, fun k hk => ?_⟩
    · by_cases hkey : k = ((sha1hex (objFrame obj.fmt data)).take 2,
        (sha1hex (objFrame obj.fmt data)).drop 2)
      · simp only [if_pos hkey]
      · simp only [if_neg hkey]
    · simp only [if_neg hk]

/-- Witness for C6 at the blob `b"a"` written twice into the empty store. -/
theorem object_write_idempotent_witness :
    object_write id (GitObj.blob [97]) (fun _ => none) true = .ok (c6digest, c6store1) ∧
    object_write id (GitObj.blob [97]) c6store1 true = .ok (c6digest, c6store2) ∧
    (c6digest = c6digest ∧ c6store2 = c6store1 ∧
      ∀ k, k ≠ (c6digest.take 2, c6digest.drop 2) → c6store1 k = (fun _ => none : ObjStore) k) :=
  ⟨rfl, rfl,
   object_write_idempotent id (GitObj.blob [97]) (fun _ => none) c6digest c6digest
     c6store1 c6store2 rfl rfl⟩

/-! ## Scanning and slicing lemmas for the tree codec -/

/-- Scanning for `c` past a prefix that lacks it finds the occurrence
right after the prefix. -/
lemma scanFor_append_found (c : Nat) (xs ys : List Nat) (h : c ∉ xs) :
    scanFor c (xs ++ c :: ys) = some xs.length := by
  induction xs with
  | nil => simp [scanFor]
  | cons a t ih =>
    have ha : a ≠ c := fun hac => h (hac ▸ List.mem_cons_self a t)
    have ht : c ∉ t := fun hm => h (List.mem_cons_of_mem _ hm)
    simp [scanFor, ha, ih ht]

/-- `bytes.find` from the end of a prefix is the prefix length plus the
scan result in the remainder. -/
lemma bFind_pre (pre tail : List Nat) (c k : Nat) (h : scanFor c tail = some k) :
    bFind (pre ++ tail) c (pre.length : Int) = ((pre.length + k : Nat) : Int) := by
  have hn : ¬ ((pre.length : Int) < 0) := by
    simp only [not_lt]
    exact Int.natCast_nonneg _
  simp [bFind, hn, Int.toNat_ofNat, List.drop_left, h]

/-- `bFind_pre` with the start given as any `Int` equal to the prefix length. -/
lemma bFind_pre' (pre tail : List Nat) (c k : Nat) (s : Int)
    (hs : s = (pre.length : Int)) (h : scanFor c tail = some k) :
    bFind (pre ++ tail) c s = ((pre.length + k : Nat) : Int) := by
  subst hs; exact bFind_pre pre tail c k h

/-- `sliceNorm` on a natural bound is a plain `min`. -/
lemma sliceNorm_ofNat (n i : Nat) : sliceNorm n (i : Int) = min i n := by
  simp [sliceNorm]

/-- Slicing with both bounds shifted past a prefix slices the remainder. -/
lemma pySlice_pre (pre tail : List Nat) (i j : Nat) :
    pySlice (pre ++ tail) ((pre.length + i : Nat) : Int) ((pre.length + j : Nat) : Int) =
      pySlice tail (i : Int) (j : Int) := by
  simp only [pySlice, sliceNorm_ofNat, List.length_append]
  rw [Nat.add_min_add_left, Nat.add_min_add_left, List.take_append, List.drop_append]

/-- `pySlice_pre` with bounds given as any `Int`s equal to the shifted ones. -/
lemma pySlice_pre' (pre tail : List Nat) (i j : Nat) (a b : Int)
    (ha : a = ((pre.length + i : Nat) : Int)) (hb : b = ((pre.length + j : Nat) : Int)) :
    pySlice (pre ++ tail) a b = pySlice tail (i : Int) (j : Int) := by
  subst ha hb; exact pySlice_pre pre tail i j

/-- An in-range slice from `0` is a `take`. -/
lemma pySlice_zero_take (tail : List Nat) (j : Nat) (h : j ≤ tail.length) :
    pySlice tail (0 : Int) (j : Int) = tail.take j := by
  have h0 : sliceNorm tail.length 0 = 0 := by simp [sliceNorm]
  simp [pySlice, sliceNorm_ofNat, h0, Nat.min_eq_left h]

/-- Parsing one structured entry `mode SP path NUL digest` at the offset
just past `pre` succeeds for a 5- or 6-byte mode with no padding, consumes
exactly the entry, and renders the digest via `hex(...)[2:]`. -/
lemma tree_parse_one_at (pre mode path b rest : List Nat)
    (hm : mode.length = 5 ∨ mode.length = 6) (hm32 : 32 ∉ mode)
    (hp0 : (0 : Nat) ∉ path) (hb : b.length = 20) :
    tree_parse_one (pre ++ (mode ++ 32 :: (path ++ 0 :: (b ++ rest)))) (pre.length : Int) =
      .ok (((pre.length + (mode.length + 1 + path.length + 1 + 20) : Nat) : Int),
        ⟨mode, path, natToHex (bytesToNatBE b)⟩) := by
  have hx : bFind (pre ++ (mode ++ 32 :: (path ++ 0 :: (b ++ rest)))) 32 (pre.length : Int)
      = ((pre.length + mode.length : Nat) : Int) :=
    bFind_pre pre _ 32 mode.length (scanFor_append_found 32 mode _ hm32)
  have h0mem : (0 : Nat) ∉ 32 :: path := by simp [hp0]
  have hscan0 : scanFor 0 (32 :: (path ++ 0 :: (b ++ rest))) = some (path.length + 1) := by
    have := scanFor_append_found 0 (32 :: path) (b ++ rest) h0mem
    simpa using this
  have hg1 : pre ++ (mode ++ 32 :: (path ++ 0 :: (b ++ rest)))
      = (pre ++ mode) ++ 32 :: (path ++ 0 :: (b ++ rest)) := by
    simp [List.append_assoc]
  have hy : bFind (pre ++ (mode ++ 32 :: (path ++ 0 :: (b ++ rest)))) 0
      ((pre.length + mode.length : Nat) : Int)
      = ((pre.length + mode.length + (path.length + 1) : Nat) : Int) := by
    rw [hg1]
    have := bFind_pre' (pre ++ mode) (32 :: (path ++ 0 :: (b ++ rest))) 0 (path.length + 1)
      ((pre.length + mode.length : Nat) : Int) (by simp) hscan0
    simpa using this
  have hmode : pySlice (pre ++ (mode ++ 32 :: (path ++ 0 :: (b ++ rest))))
      (pre.length : Int) ((pre.length + mode.length : Nat) : Int) = mode := by
    rw [pySlice_pre' pre _ 0 mode.length _ _ (by simp) (by simp)]
    rw [show ((0 : Nat) : Int) = (0 : Int) from rfl]
    rw [pySlice_zero_take _ mode.length (by simp [List.length_append])]
    exact List.take_left mode _
  have hg2 : pre ++ (mode ++ 32 :: (path ++ 0 :: (b ++ rest)))
      = (pre ++ (mode ++ [32])) ++ (path ++ 0 :: (b ++ rest)) := by
    simp [List.append_assoc]
  have hpath : pySlice (pre ++ (mode ++ 32 :: (path ++ 0 :: (b ++ rest))))
      (((pre.length + mode.length : Nat) : Int) + 1)
      ((pre.length + mode.length + (path.length + 1) : Nat) : Int) = path := by
    rw [hg2]
    rw [pySlice_pre' (pre ++ (mode ++ [32])) _ 0 path.length _ _
      (by simp; omega) (by simp; omega)]
    rw [show ((0 : Nat) : Int) = (0 : Int) from rfl]
    rw [pySlice_zero_take _ path.length (by simp [List.length_append])]
    exact List.take_left path _
  have hg3 : pre ++ (mode ++ 32 :: (path ++ 0 :: (b ++ rest)))
      = (pre ++ (mode ++ 32 :: (path ++ [0]))) ++ (b ++ rest) := by
    simp [List.append_assoc]
  have hsha : pySlice (pre ++ (mode ++ 32 :: (path ++ 0 :: (b ++ rest))))
      (((pre.length + mode.length + (path.length + 1) : Nat) : Int) + 1)
      (((pre.length + mode.length + (path.length + 1) : Nat) : Int) + 21) = b := by
    rw [hg3]
    rw [pySlice_pre' (pre ++ (mode ++ 32 :: (path ++ [0]))) _ 0 20 _ _
      (by simp; omega) (by simp; omega)]
    rw [show ((0 : Nat) : Int) = (0 : Int) from rfl]
    rw [pySlice_zero_take _ 20 (by simp [List.length_append]; omega)]
    exact List.take_left' hb
  simp only [tree_parse_one, hx, hy, hmode, hpath, hsha]
  rw [if_pos (by push_cast; omega)]
  simp only [Except.ok.injEq, Prod.mk.injEq]
  refine ⟨by push_cast; omega, trivial⟩

/-! ## Hex and byte conversion round-trips -/

/-- Reading back the character of a hex digit recovers the digit. -/
lemma hexCharVal_hexDigitChar (d : Nat) (h : d < 16) :
    hexCharVal (hexDigitChar d) = some d := by
  interval_cases d <;> decide

/-- The fueled digit expansion is faithful when the fuel covers the input. -/
lemma valHexLE_hexDigitsAux : ∀ f n, n ≤ f → valHexLE (hexDigitsAux f n) = n := by
  intro f
  induction f with
  | zero => intro n hn; interval_cases n; decide
  | succ f ih =>
    intro n hn
    by_cases h0 : n = 0
    · subst h0; simp [hexDigitsAux, valHexLE]
    · have hdiv : n / 16 < n := Nat.div_lt_self (Nat.pos_of_ne_zero h0) (by omega)
      simp only [hexDigitsAux, h0, if_neg, valHexLE]
      rw [ih (n / 16) (by omega)]
      omega

/-- Every produced hex digit is below 16. -/
lemma hexDigitsAux_lt16 : ∀ f n d, d ∈ hexDigitsAux f n → d < 16 := by
  intro f
  induction f with
  | zero => intro n d hd; simp [hexDigitsAux] at hd
  | succ f ih =>
    intro n d hd
    by_cases h0 : n = 0
    · subst h0; simp [hexDigitsAux] at hd
    · simp only [hexDigitsAux, h0, if_neg] at hd
      rcases List.mem_cons.mp hd with h | h
      · omega
      · exact ih _ _ h

/-- A positive number has at least one hex digit. -/
lemma hexDigitsAux_ne_nil (f n : Nat) (h0 : n ≠ 0) (hf : 1 ≤ f) :
    hexDigitsAux f n ≠ [] := by
  cases f with
  | zero => omega
  | succ f => simp [hexDigitsAux, h0]

/-- Folding the hex reader over the rendered digits reconstructs the value. -/
lemma hexFold_digits : ∀ (ds : List Nat) (acc : Nat), (∀ d ∈ ds, d < 16) →
    List.foldlM (fun a c => (hexCharVal c).map (fun v => a * 16 + v)) acc
      (ds.reverse.map hexDigitChar) = some (acc * 16 ^ ds.length + valHexLE ds) := by
  intro ds
  induction ds with
  | nil => intro acc _; simp [valHexLE]
  | cons d t ih =>
    intro acc hall
    have hd : d < 16 := hall d (List.mem_cons_self d t)
    have ht : ∀ x ∈ t, x < 16 := fun x hx => hall x (List.mem_cons_of_mem _ hx)
    rw [List.reverse_cons, List.map_append, List.foldlM_append, ih acc ht]
    simp only [List.map_cons, List.map_nil, List.foldlM, hexCharVal_hexDigitChar d hd]
    simp [valHexLE]
    ring

/-- Unfolding `hexToNat` on a nonempty rendered string. -/
lemma hexToNat_mk_cons (c : Char) (t : List Char) :
    hexToNat (String.mk (c :: t)) =
      List.foldlM (fun a ch => (hexCharVal ch).map (fun v => a * 16 + v)) 0 (c :: t) := rfl

/-- Python `int(hex(n)[2:], 16)` recovers `n`. -/
lemma hexToNat_natToHex (n : Nat) : hexToNat (natToHex n) = some n := by
  by_cases h0 : n = 0
  · subst h0; decide
  · have hne : (hexDigitsLE n).reverse.map hexDigitChar ≠ [] := by
      simp only [ne_eq, List.map_eq_nil_iff, List.reverse_eq_nil_iff]
      exact hexDigitsAux_ne_nil n n h0 (Nat.one_le_iff_ne_zero.mpr h0)
    obtain ⟨c, t, hl⟩ := List.exists_cons_of_ne_nil hne
    have hnat : natToHex n = String.mk ((hexDigitsLE n).reverse.map hexDigitChar) := by
      simp [natToHex, h0]
    rw [hnat, hl, hexToNat_mk_cons, ← hl]
    have hfold := hexFold_digits (hexDigitsLE n) 0 (fun d hd => hexDigitsAux_lt16 n n d hd)
    rw [hfold, show valHexLE (hexDigitsLE n) = n from valHexLE_hexDigitsAux n n (le_refl n)]
    simp

/-- `int.from_bytes` of a list extended by one byte. -/
lemma bytesToNatBE_append_single (bs : List Nat) (x : Nat) :
    bytesToNatBE (bs ++ [x]) = bytesToNatBE bs * 256 + x := by
  simp [bytesToNatBE, List.foldl_append]

/-- `int.from_bytes` of byte-bounded input is below `256 ^ length`. -/
lemma bytesToNatBE_lt (b : List Nat) (hall : ∀ x ∈ b, x < 256) :
    bytesToNatBE b < 256 ^ b.length := by
  induction b using List.reverseRecOn with
  | nil => decide
  | append_singleton bs x ih =>
    have h1 : bytesToNatBE bs < 256 ^ bs.length :=
      ih (fun y hy => hall y (List.mem_append_left _ hy))
    have hx : x < 256 := hall x (List.mem_append_right _ (List.mem_singleton_self x))
    rw [bytesToNatBE_append_single, List.length_append, List.length_singleton, pow_succ]
    omega

/-- `to_bytes(20, "big")` inverts `int.from_bytes` on 20 in-range bytes. -/
lemma natToBytesBE_bytesToNatBE (b : List Nat) (hall : ∀ x ∈ b, x < 256) :
    natToBytesBE b.length (bytesToNatBE b) = b := by
  induction b using List.reverseRecOn with
  | nil => rfl
  | append_singleton bs x ih =>
    have hx : x < 256 := hall x (List.mem_append_right _ (List.mem_singleton_self x))
    rw [bytesToNatBE_append_single, List.length_append, List.length_singleton]
    show natToBytesBE (bs.length + 1) (bytesToNatBE bs * 256 + x) = bs ++ [x]
    rw [natToBytesBE]
    have hdiv : (bytesToNatBE bs * 256 + x) / 256 = bytesToNatBE bs := by omega
    have hmod : (bytesToNatBE bs * 256 + x) % 256 = x := by omega
    rw [hdiv, hmod, ih (fun y hy => hall y (List.mem_append_left _ hy))]

/-- One pass of the `tree_parse` loop when the position is in range. -/
lemma tree_parse_step (raw : List Nat) (pos : Int) (f : Nat) (h : pos < (raw.length : Int)) :
    tree_parse raw pos (f + 1) =
      match tree_parse_one raw pos with
      | .error e => some (.error e)
      | .ok (pos', leaf) => (tree_parse raw pos' f).map (·.map (leaf :: ·)) := by
  simp [tree_parse, h]

/-- The `tree_parse` loop stops once the position leaves the payload. -/
lemma tree_parse_done (raw : List Nat) (pos : Int) (f : Nat) (h : ¬ pos < (raw.length : Int)) :
    tree_parse raw pos (f + 1) = some (.ok []) := by
  simp [tree_parse, h]

/-- A serializer step on a leaf whose sha renders 20 in-range digest
bytes appends exactly the original entry encoding. -/
lemma tree_serialize_one_ok (acc m p b : List Nat) (hb : b.length = 20)
    (hall : ∀ x ∈ b, x < 256) :
    tree_serialize_one acc ⟨m, p, natToHex (bytesToNatBE b)⟩ =
      .ok (acc ++ m ++ [32] ++ p ++ [0] ++ b) := by
  have hx := hexToNat_natToHex (bytesToNatBE b)
  have hn : bytesToNatBE b < 256 ^ 20 := hb ▸ bytesToNatBE_lt b hall
  have hbs : natToBytesBE 20 (bytesToNatBE b) = b := by
    rw [← hb]; exact natToBytesBE_bytesToNatBE b hall
  simp only [tree_serialize_one, hx, if_pos hn, hbs]

/-- C7: within one tree payload, entries with a 5-character mode and a
6-character mode both parse without padding (the parsed `mode` fields are
exactly the supplied byte strings), and `tree_serialize` re-emits each mode
un-padded with the entries concatenated in the caller's order, reproducing
the payload byte for byte. -/
theorem tree_codec_modes_5_and_6 :
    ∀ (m1 p1 b1 m2 p2 b2 : List Nat),
      (m1.length = 5 ∨ m1.length = 6) → (m2.length = 5 ∨ m2.length = 6) →
      32 ∉ m1 → 32 ∉ m2 → (0 : Nat) ∉ p1 → (0 : Nat) ∉ p2 →
      b1.length = 20 → b2.length = 20 →
      (∀ x ∈ b1, x < 256) → (∀ x ∈ b2, x < 256) →
      tree_parse (m1 ++ 32 :: (p1 ++ 0 :: (b1 ++ (m2 ++ 32 :: (p2 ++ 0 :: b2))))) 0 3 =
        some (.ok [⟨m1, p1, natToHex (bytesToNatBE b1)⟩,
                   ⟨m2, p2, natToHex (bytesToNatBE b2)⟩]) ∧
      tree_serialize [⟨m1, p1, natToHex (bytesToNatBE b1)⟩,
                      ⟨m2, p2, natToHex (bytesToNatBE b2)⟩] =
        .ok (m1 ++ 32 :: (p1 ++ 0 :: (b1 ++ (m2 ++ 32 :: (p2 ++ 0 :: b2))))) := by
  intro m1 p1 b1 m2 p2 b2 hm1 hm2 hm321 hm322 hp01 hp02 hb1 hb2 hall1 hall2
  have hlenraw : (m1 ++ 32 :: (p1 ++ 0 :: (b1 ++ (m2 ++ 32 :: (p2 ++ 0 :: b2))))).length
      = m1.length + 1 + p1.length + 1 + 20 + (m2.length + 1 + p2.length + 1 + 20) := by
    simp [hb1, hb2]
    omega
  constructor
  · -- parse side
    have h1 := tree_parse_one_at [] m1 p1 b1 (m2 ++ 32 :: (p2 ++ 0 :: b2)) hm1 hm321 hp01 hb1
    simp only [List.nil_append, List.length_nil, Nat.zero_add, Nat.cast_zero] at h1
    have h2 := tree_parse_one_at (m1 ++ 32 :: (p1 ++ 0 :: b1)) m2 p2 b2 [] hm2 hm322 hp02 hb2
    simp only [List.append_nil] at h2
    have hre : (m1 ++ 32 :: (p1 ++ 0 :: b1)) ++ (m2 ++ 32 :: (p2 ++ 0 :: b2))
        = m1 ++ 32 :: (p1 ++ 0 :: (b1 ++ (m2 ++ 32 :: (p2 ++ 0 :: b2)))) := by
      simp [List.append_assoc]
    rw [hre] at h2
    have hlen1 : (m1 ++ 32 :: (p1 ++ 0 :: b1)).length = m1.length + 1 + p1.length + 1 + 20 := by
      simp [hb1]
      omega
    rw [hlen1] at h2
    have hpos0 : (0 : Int) <
        ((m1 ++ 32 :: (p1 ++ 0 :: (b1 ++ (m2 ++ 32 :: (p2 ++ 0 :: b2))))).length : Int) := by
      rw [hlenraw]; push_cast; omega
    have hpos2 : ¬ (((m1.length + 1 + p1.length + 1 + 20 +
          (m2.length + 1 + p2.length + 1 + 20) : Nat) : Int) <
        ((m1 ++ 32 :: (p1 ++ 0 :: (b1 ++ (m2 ++ 32 :: (p2 ++ 0 :: b2))))).length : Int)) := by
      rw [hlenraw]; push_cast; omega
    rw [show (3 : Nat) = 2 + 1 from rfl, tree_parse_step _ _ _ hpos0]
    simp only [h1]
    rw [show (2 : Nat) = 1 + 1 from rfl, tree_parse_step _ _ _ (by rw [hlenraw]; push_cast; omega)]
    simp only [h2]
    rw [show (1 : Nat) = 0 + 1 from rfl, tree_parse_done _ _ _ hpos2]
    rfl
  · -- serialize side
    show List.foldlM tree_serialize_one [] _ = _
    rw [List.foldlM_cons, tree_serialize_one_ok [] m1 p1 b1 hb1 hall1]
    simp only [bind, Except.bind]
    rw [List.foldlM_cons, tree_serialize_one_ok _ m2 p2 b2 hb2 hall2]
    simp only [bind, Except.bind]
    rw [List.foldlM_nil]
    simp only [pure, Except.pure, Except.ok.injEq]
    simp [List.append_assoc]

/-- Witness for C7 at the modes `b"40000"` and `b"100644"` in one payload. -/
theorem tree_codec_modes_5_and_6_witness :
    (c7m1.length = 5 ∨ c7m1.length = 6) ∧
    (tree_parse (c7m1 ++ 32 :: (c7p1 ++ 0 :: (c7b1 ++ (c7m2 ++ 32 :: (c7p2 ++ 0 :: c7b2))))) 0 3 =
        some (.ok [⟨c7m1, c7p1, natToHex (bytesToNatBE c7b1)⟩,
                   ⟨c7m2, c7p2, natToHex (bytesToNatBE c7b2)⟩]) ∧
      tree_serialize [⟨c7m1, c7p1, natToHex (bytesToNatBE c7b1)⟩,
                      ⟨c7m2, c7p2, natToHex (bytesToNatBE c7b2)⟩] =
        .ok (c7m1 ++ 32 :: (c7p1 ++ 0 :: (c7b1 ++ (c7m2 ++ 32 :: (c7p2 ++ 0 :: c7b2)))))) :=
  ⟨by decide,
   tree_codec_modes_5_and_6 c7m1 c7p1 c7b1 c7m2 c7p2 c7b2 (by decide) (by decide) (by decide)
     (by decide) (by decide) (by decide) (by decide) (by decide) (by decide) (by decide)⟩

/-! ## Graph walker: termination measure and visit-once lemmas -/

/-- A pointwise-stronger filter keeps no more elements. -/
lemma filter_length_mono {α : Type} (l : List α) (p q : α → Bool)
    (h : ∀ x, p x = true → q x = true) :
    (l.filter p).length ≤ (l.filter q).length := by
  induction l with
  | nil => simp
  | cons x t ih =>
    by_cases hp : p x = true
    · have hq := h x hp
      simp [List.filter_cons, hp, hq]
      omega
    · have hp' : p x = false := by revert hp; cases p x <;> simp
      by_cases hq : q x = true
      · simp [List.filter_cons, hp', hq]
        omega
      · have hq' : q x = false := by revert hq; cases q x <;> simp
        simp [List.filter_cons, hp', hq']
        exact ih

/-- Filtering out one more stored, unseen digest strictly shrinks the
kept-key count. -/
lemma filter_unseen_lt (keys seen : List String) (sha : String)
    (hmem : sha ∈ keys) (hsha : sha ∉ seen) :
    (keys.filter (fun k => decide (k ∉ sha :: seen))).length <
      (keys.filter (fun k => decide (k ∉ seen))).length := by
  induction keys with
  | nil => simp at hmem
  | cons k t ih =>
    by_cases hk : k = sha
    · subst hk
      have h1 : (decide (k ∉ seen)) = true := by simp [hsha]
      have h2 : (decide (k ∉ k :: seen)) = false := by simp
      rw [List.filter_cons, List.filter_cons, h1, h2, if_pos rfl,
        if_neg Bool.false_ne_true, List.length_cons]
      have := filter_length_mono t (fun x => decide (x ∉ k :: seen))
        (fun x => decide (x ∉ seen))
        (fun x hx => by
          simp only [decide_eq_true_eq] at hx ⊢
          exact fun hmem2 => hx (List.mem_cons_of_mem _ hmem2))
      omega
    · have hmem2 : sha ∈ t := by
        rcases List.mem_cons.mp hmem with h | h
        · exact absurd h.symm hk
        · exact h
      have heq : (decide (k ∉ sha :: seen)) = (decide (k ∉ seen)) := by
        by_cases hks : k ∈ seen
        · simp [hks]
        · simp [hks, List.mem_cons, hk]
      rw [List.filter_cons, List.filter_cons, heq]
      cases hb : decide (k ∉ seen) with
      | false =>
        rw [if_neg Bool.false_ne_true, if_neg Bool.false_ne_true]
        exact ih hmem2
      | true =>
        rw [if_pos rfl, if_pos rfl, List.length_cons, List.length_cons]
        exact Nat.succ_lt_succ (ih hmem2)

/-- Marking a stored, unseen digest as seen strictly shrinks the measure. -/
lemma unseenCount_cons_lt (store : CommitStore) (seen : List String) (sha : String)
    (hmem : sha ∈ store.map Prod.fst) (hsha : sha ∉ seen) :
    unseenCount store (sha :: seen) < unseenCount store seen :=
  filter_unseen_lt (store.map Prod.fst) seen sha hmem hsha

/-- A larger seen set never increases the measure. -/
lemma unseenCount_mono (store : CommitStore) (s1 s2 : List String)
    (h : ∀ x ∈ s1, x ∈ s2) :
    unseenCount store s2 ≤ unseenCount store s1 := by
  unfold unseenCount
  exact filter_length_mono _ _ _ (fun x hx => by
    simp only [decide_eq_true_eq] at hx ⊢
    exact fun hmem => hx (h x hmem))

/-- A successful lookup means the digest is among the store's keys. -/
lemma storeLookup_mem (store : CommitStore) (sha : String) (o : GitObj)
    (h : storeLookup store sha = some o) : sha ∈ store.map Prod.fst := by
  induction store with
  | nil => simp [storeLookup] at h
  | cons kv t ih =>
    rw [storeLookup] at h
    by_cases hk : kv.1 = sha
    · simp [hk]
    · rw [if_neg hk] at h
      simp [ih h]

/-- Invariant of the parent loop, parametric in the recursive call: given
that every successful recursive result extends `seen`, visits no duplicate,
and visits only fresh digests that end up seen, the loop preserves the
same three facts. -/
lemma walkParents_inv
    (recur : String → List String → Option (Except PyErr WalkOut)) (sha : String)
    (hrec : ∀ q sn e' s' t', recur q sn = some (.ok ⟨e', s', t'⟩) →
      (∀ x ∈ sn, x ∈ s') ∧ t'.Nodup ∧ (∀ x ∈ t', x ∈ s' ∧ x ∉ sn)) :
    ∀ (ps : List (List Nat)) (seen : List String) (e : List (String × String))
      (s : List String) (t : List String),
      walkParents recur sha ps seen = some (.ok ⟨e, s, t⟩) →
      (∀ x ∈ seen, x ∈ s) ∧ t.Nodup ∧ (∀ x ∈ t, x ∈ s ∧ x ∉ seen) := by
  intro ps
  induction ps with
  | nil =>
    intro seen e s t h
    simp only [walkParents, Option.some.injEq, Except.ok.injEq, WalkOut.mk.injEq] at h
    obtain ⟨_, hs, ht⟩ := h
    subst hs ht
    exact ⟨fun x hx => hx, List.nodup_nil, fun x hx => absurd hx (List.not_mem_nil x)⟩
  | cons p rest ih =>
    intro seen e s t h
    simp only [walkParents] at h
    split at h
    · exact absurd h (by simp)
    · rename_i pstr hdec
      split at h
      · exact absurd h (by simp)
      · exact absurd h (by simp)
      · rename_i o1 hrec1
        split at h
        · exact absurd h (by simp)
        · exact absurd h (by simp)
        · rename_i o2 hrest
          simp only [Option.some.injEq, Except.ok.injEq, WalkOut.mk.injEq] at h
          obtain ⟨_, hs, ht⟩ := h
          subst hs ht
          have h1 := hrec pstr seen o1.edges o1.seen o1.trace hrec1
          have h2 := ih o1.seen o2.edges o2.seen o2.trace hrest
          refine ⟨fun x hx => h2.1 x (h1.1 x hx), ?_, ?_⟩
          · rw [List.nodup_append]
            refine ⟨h1.2.1, h2.2.1, fun x hx1 hx2 => ?_⟩
            exact (h2.2.2 x hx2).2 ((h1.2.2 x hx1).1)
          · intro x hx
            rcases List.mem_append.mp hx with hx1 | hx2
            · exact ⟨h2.1 x (h1.2.2 x hx1).1, (h1.2.2 x hx1).2⟩
            · exact ⟨(h2.2.2 x hx2).1, fun hxs => (h2.2.2 x hx2).2 (h1.1 x hxs)⟩

/-- Invariant of `log_graphviz`: a successful walk only extends `seen`,
its visit trace has no duplicates — each distinct commit is read at most
once — and every visited digest is fresh and ends up in `seen`. -/
lemma log_graphviz_inv :
    ∀ (fuel : Nat) (store : CommitStore) (sha : String) (seen : List String)
      (e : List (String × String)) (s : List String) (t : List String),
      log_graphviz store sha seen fuel = some (.ok ⟨e, s, t⟩) →
      (∀ x ∈ seen, x ∈ s) ∧ t.Nodup ∧ (∀ x ∈ t, x ∈ s ∧ x ∉ seen) := by
  intro fuel
  induction fuel with
  | zero =>
    intro store sha seen e s t h
    exact absurd h (by simp [log_graphviz])
  | succ f ih =>
    intro store sha seen e s t h
    simp only [log_graphviz] at h
    by_cases hseen : sha ∈ seen
    · rw [if_pos hseen] at h
      simp only [Option.some.injEq, Except.ok.injEq, WalkOut.mk.injEq] at h
      obtain ⟨_, hs, ht⟩ := h
      subst hs ht
      exact ⟨fun x hx => hx, List.nodup_nil, fun x hx => absurd hx (List.not_mem_nil x)⟩
    · rw [if_neg hseen] at h
      split at h
      · exact absurd h (by simp)
      · rename_i obj hlook
        split at h
        · rename_i hfmt
          split at h
          · rename_i c
            split at h
            · exact absurd h (by simp)
            · rename_i kv hkv
              split at h
              · simp only [Option.some.injEq, Except.ok.injEq, WalkOut.mk.injEq] at h
                obtain ⟨_, hs, ht⟩ := h
                subst hs ht
                refine ⟨fun x hx => List.mem_cons_of_mem _ hx, List.nodup_singleton _, ?_⟩
                intro x hx
                rw [List.mem_singleton] at hx
                subst hx
                exact ⟨List.mem_cons_self _ _, hseen⟩
              · rename_i ps hps
                split at h
                · exact absurd h (by simp)
                · exact absurd h (by simp)
                · rename_i o hwalk
                  simp only [Option.some.injEq, Except.ok.injEq, WalkOut.mk.injEq] at h
                  obtain ⟨_, hs, ht⟩ := h
                  subst hs ht
                  have hinv := walkParents_inv (fun q sn => log_graphviz store q sn f) sha
                    (fun q sn e' s' t' hq => ih store q sn e' s' t' hq)
                    ps (sha :: seen) o.edges o.seen o.trace hwalk
                  refine ⟨fun x hx => hinv.1 x (List.mem_cons_of_mem _ hx), ?_, ?_⟩
                  · rw [List.nodup_cons]
                    refine ⟨fun hmem => ?_, hinv.2.1⟩
                    exact (hinv.2.2 sha hmem).2 (List.mem_cons_self _ _)
                  · intro x hx
                    rcases List.mem_cons.mp hx with hx1 | hx2
                    · subst hx1
                      exact ⟨hinv.1 x (List.mem_cons_self _ _), hseen⟩
                    · refine ⟨(hinv.2.2 x hx2).1, fun hxs => ?_⟩
                      exact (hinv.2.2 x hx2).2 (List.mem_cons_of_mem _ hxs)
          · exact absurd h (by simp)
          · exact absurd h (by simp)
        · exact absurd h (by simp)

/-- The parent loop runs to completion (no fuel exhaustion) whenever the
inner walks at fuel `f` do, which holds when the measure is below `f`. -/
lemma walkParents_fuel (store : CommitStore) (f : Nat)
    (hF : ∀ sha seen, unseenCount store seen < f →
      (log_graphviz store sha seen f).isSome) :
    ∀ (ps : List (List Nat)) (sha : String) (seen : List String),
      unseenCount store seen < f →
      (walkParents (fun q s => log_graphviz store q s f) sha ps seen).isSome := by
  intro ps
  induction ps with
  | nil => intro sha seen _; simp [walkParents]
  | cons p rest ih =>
    intro sha seen hcount
    simp only [walkParents]
    cases hdec : decodeAscii p with
    | error e => simp
    | ok pstr =>
      have hsome := hF pstr seen hcount
      cases hlog : log_graphviz store pstr seen f with
      | none => rw [hlog] at hsome; simp at hsome
      | some x =>
        cases x with
        | error e => simp [hlog]
        | ok o1 =>
          have hsub := (log_graphviz_inv f store pstr seen o1.edges o1.seen o1.trace hlog).1
          have hcount1 : unseenCount store o1.seen ≤ unseenCount store seen :=
            unseenCount_mono store seen o1.seen hsub
          have hrest := ih sha o1.seen (by omega)
          cases hwalk : walkParents (fun q s => log_graphviz store q s f) sha rest o1.seen with
          | none => rw [hwalk] at hrest; simp at hrest
          | some y => cases y with
            | error e => simp [hlog, hwalk]
            | ok o2 => simp [hlog, hwalk]

/-- With fuel exceeding the number of unseen stored digests, the walk never
exhausts its fuel: it terminates with a result (or a raised error). -/
lemma log_graphviz_fuel :
    ∀ (fuel : Nat) (store : CommitStore) (sha : String) (seen : List String),
      unseenCount store seen < fuel →
      (log_graphviz store sha seen fuel).isSome := by
  intro fuel
  induction fuel with
  | zero => intro store sha seen hcount; omega
  | succ f ih =>
    intro store sha seen hcount
    simp only [log_graphviz]
    by_cases hseen : sha ∈ seen
    · rw [if_pos hseen]; simp
    · rw [if_neg hseen]
      cases hlook : storeLookup store sha with
      | none => simp [hlook]
      | some obj =>
        simp only [hlook]
        by_cases hfmt : obj.fmt = commitTag
        · rw [if_pos hfmt]
          cases obj with
          | blob d => simp
          | tree items => simp
          | commit c =>
            cases hkv : c.kvlm with
            | none => simp [hkv]
            | some kv =>
              simp only [hkv]
              cases hps : kvParents kv with
              | none => simp [hps]
              | some ps =>
                simp only [hps]
                have hmem : sha ∈ store.map Prod.fst := storeLookup_mem store sha _ hlook
                have hdec := unseenCount_cons_lt store seen sha hmem hseen
                have hwalk := walkParents_fuel store f
                  (fun sha' seen' h => ih store sha' seen' h)
                  ps sha (sha :: seen) (by omega)
                cases hw : walkParents (fun q s => log_graphviz store q s f) sha ps
                    (sha :: seen) with
                | none => rw [hw] at hwalk; simp at hwalk
                | some y => cases y with
                  | error e => simp [hw]
                  | ok o => simp [hw]
        · rw [if_neg hfmt]; simp

/-- C8: the graph walker terminates on every finite store — fuel exceeding
the store size is never exhausted — and its visit trace (the digests passed
to `object_read`, in order) contains no duplicates, so each distinct commit
is visited at most once no matter how many paths lead to it; concretely, in
the diamond history where `a` merges `b` and `c` over the shared root `d`,
the walk from `a` visits `d` exactly once. -/
theorem log_graphviz_visits_each_commit_once :
    (∀ (store : CommitStore) (sha : String),
      (log_graphviz store sha [] (unseenCount store [] + 1)).isSome ∧
      (walkTrace (log_graphviz store sha [] (unseenCount store [] + 1))).Nodup) ∧
    walkTrace (log_graphviz diamondStore shaA [] 5) = [shaA, shaB, shaD, shaC] ∧
    (walkTrace (log_graphviz diamondStore shaA [] 5)).count shaD = 1 := by
  refine ⟨?_, by decide, by decide⟩
  intro store sha
  refine ⟨log_graphviz_fuel _ store sha [] (by omega), ?_⟩
  cases h : log_graphviz store sha [] (unseenCount store [] + 1) with
  | none => simp [walkTrace]
  | some x =>
    cases x with
    | error e => simp [walkTrace]
    | ok o =>
      have hinv := log_graphviz_inv (unseenCount store [] + 1) store sha [] o.edges o.seen
        o.trace h
      simpa [walkTrace] using hinv.2.1

/-- The embedded SHA-1 agrees with the standard test vector for the empty
message (`da39a3ee5e6b4b0d3255bfef95601890afd80709`). -/
lemma sha1hex_vector_empty :
    sha1hex [] = strOfCodes
      [100, 97, 51, 57, 97, 51, 101, 101, 53, 101, 54, 98, 52, 98, 48, 100, 51, 50, 53,
       53, 98, 102, 101, 102, 57, 53, 54, 48, 49, 56, 57, 48, 97, 102, 100, 56, 48, 55,
       48, 57] := by
  decide

/-- The embedded SHA-1 agrees with the standard test vector for `b"abc"`
(`a9993e364706816aba3e25717850c26c9cd0d89d`). -/
lemma sha1hex_vector_abc :
    sha1hex [97, 98, 99] = strOfCodes
      [97, 57, 57, 57, 51, 101, 51, 54, 52, 55, 48, 54, 56, 49, 54, 97, 98, 97, 51, 101,
       50, 53, 55, 49, 55, 56, 53, 48, 99, 50, 54, 99, 57, 99, 100, 48, 100, 56, 57,
       100] := by
  decide
